import Mathlib

/-!
Verification of the GithubService class (src/modules/github/github.service.ts)
of the meme-on-approve repository, a NestJS service that polls the GitHub REST
API for pull requests recently approved by the configured user and posts a meme
comment on each one.

Shallow embedding conventions:
* JS strings are lists of characters (Str below); JS String.prototype methods
  are embedded as the corresponding list operations (startsWith as isPrefixOf,
  includes as isInfixOf, replace with a string pattern as replaceFirst, a
  first-occurrence replacement defined below).
* Network I/O is an oracle input: each axios call's outcome is passed in as a
  FetchOutcome value (the parsed response data, or an HTTP error carrying the
  optional response status that the code inspects via error.response-status).
* Dates are epoch milliseconds (Int): parseISO maps an ISO timestamp to its
  instant, date-fns isAfter is strict comparison of instants, and date-fns
  subMinutes subtracts whole minutes; Review.submitted_at and Event.created_at
  hold the parsed instant directly.
* Fallible async methods return Except HttpError; methods whose source catches
  every error therefore return Except values that are provably always ok.
* Math.random is an oracle rational in the half-open unit interval.
-/

namespace GithubService

/-- JS strings, embedded as lists of characters. -/
abbrev Str := List Char

/-- The data the code reads off an axios error: error.response-status, absent
when there was no HTTP response. HttpStatus.NOT_FOUND is 404. -/
structure HttpError where
  status : Option Nat
deriving DecidableEq, Repr

/-- Outcome of one network call, supplied as an oracle input to the embedded
methods: either the parsed response data or an error. -/
inductive FetchOutcome (α : Type) where
  | ok (data : α)
  | err (e : HttpError)
deriving DecidableEq, Repr

/-- The nested user object of a review (source interface Review.user). -/
structure User where
  login : Str
deriving DecidableEq, Repr

/-- Source interface Review; submitted_at holds the parseISO instant in epoch
milliseconds. -/
structure Review where
  state : Str
  user : User
  submitted_at : Int
deriving DecidableEq, Repr

/-- Source interface Comment. -/
structure Comment where
  body : Str
deriving DecidableEq, Repr

/-- Source interface Event; created_at holds the parsed instant. -/
structure Event where
  event : Str
  state : Str
  actor : User
  created_at : Int
deriving DecidableEq, Repr

/-- Source interface PullRequest. html_url and repository_url are optional
because the code explicitly guards against their absence; search results are
also typed with this interface in the source. -/
structure PullRequest where
  html_url : Option Str
  repository_url : Option Str
  number : Nat
deriving DecidableEq, Repr

/-- An outbound POST request: target url and JSON body field. -/
structure PostRequest where
  url : Str
  body : Str
deriving DecidableEq, Repr

/-- HttpStatus.NOT_FOUND from nestjs/common. -/
def NOT_FOUND : Nat := 404

def apiReposBaseS : String :=
  "https://api.github.com/repos/"

/-- The literal url fragment stripped from repository_url fields and used to
build issue urls. -/
def apiReposBase : Str := apiReposBaseS.data

def approvedS : String :=
  "APPROVED"

/-- The review state the approval test looks for. -/
def APPROVED : Str := approvedS.data

def reviewedS : String :=
  "reviewed"

/-- The event type kept by the issue-events fallback. -/
def reviewedTag : Str := reviewedS.data

def memeBodyOpenS : String :=
  "![Meme]("

def memeBodyCloseS : String :=
  ")"

def issuesSegS : String :=
  "/issues/"

def commentsSegS : String :=
  "/comments"

def memeUrl0 : String :=
  "https://media.makeameme.org/created/pr-approved-seeing.jpg"

def memeUrl1 : String :=
  "https://www.memecreator.org/static/images/memes/5595060.jpg"

def memeUrl2 : String :=
  "https://media.makeameme.org/created/you-get-approved-a0fd4c37ee.jpg"

def memeUrl3 : String :=
  "http://www.quickmeme.com/img/17/17960076ed8eb9b005747677c781d58cfe237f192c0f0e4e243cd73bd789b3fc.jpg"

def memeUrl4 : String :=
  "https://i.imgflip.com/8qwq96.jpg"

def memeUrl5 : String :=
  "https://www.meme-arsenal.com/memes/cba08ac9b63f603c1f30495a45967708.jpg"

def memeUrl6 : String :=
  "https://media.makeameme.org/created/i-got-you-b6b9066329.jpg"

def memeUrl7 : String :=
  "https://i.pinimg.com/564x/e0/b9/32/e0b932da2b84a6bc012af9b9a5774087.jpg"

/-- The fixed meme catalog (field memeUrls of the service), in source order. -/
def memeUrls : List Str :=
  [memeUrl0.data, memeUrl1.data, memeUrl2.data, memeUrl3.data,
   memeUrl4.data, memeUrl5.data, memeUrl6.data, memeUrl7.data]

/-- JS truthiness of an optional string: undefined, null and the empty string
are falsy. Used for the guards on pr.html_url and pr.repository_url. -/
def truthy : Option Str → Bool
  | some s => !s.isEmpty
  | none => false

/-- JS String.prototype.includes: the pattern occurs as a contiguous substring
of the receiver (every string includes the empty string). -/
def includes : Str → Str → Bool
  | [], pat => pat.isEmpty
  | c :: rest, pat => pat.isPrefixOf (c :: rest) || includes rest pat

/-- JS String.prototype.replace with a plain string pattern: replaces the
first occurrence of the pattern only, and leaves the string unchanged when the
pattern does not occur. -/
def replaceFirst (pat repl : Str) : Str → Str
  | [] => if pat.isEmpty then repl else []
  | c :: rest =>
    if pat.isPrefixOf (c :: rest) then repl ++ (c :: rest).drop pat.length
    else c :: replaceFirst pat repl rest

/-- repository_url.replace of the api base with the empty string, the
derivation of a repository identifier used throughout the service. -/
def repoIdOfUrl (u : Str) : Str := replaceFirst apiReposBase [] u

/-- trackApprovedRepositories: folds the search items into the mutable
approvedRepos set of the service instance. The set-valued field is made
explicit: prior is its contents before the call (the field is initialised to
the empty set when the service is constructed and is never cleared). Each item
with a truthy repository_url contributes its derived repository identifier. -/
def trackApprovedRepositories (prior : Finset Str) (items : List PullRequest) : Finset Str :=
  items.foldl
    (fun s pr =>
      match pr.repository_url with
      | some u => if u.isEmpty then s else insert (repoIdOfUrl u) s
      | none => s)
    prior

/-- The repository identifiers derived from one cycle's search items, in item
order: items with a missing or empty repository_url are excluded. -/
def cycleRepoIds (items : List PullRequest) : List Str :=
  items.filterMap
    (fun pr =>
      match pr.repository_url with
      | some u => if u.isEmpty then none else some (repoIdOfUrl u)
      | none => none)

/-- Promise.all over already-started promises: resolves to the list of all
results when every promise resolves, and rejects when any promise rejects. -/
def promiseAll {α : Type} : List (Except HttpError α) → Except HttpError (List α)
  | [] => .ok []
  | p :: ps =>
    match p with
    | .error e => .error e
    | .ok a =>
      match promiseAll ps with
      | .ok rest => .ok (a :: rest)
      | .error e => .error e

/-- getPullRequestsForRepos: one open-pulls request per repository name
(fetchPulls is the oracle for those requests), awaited together with
Promise.all and flattened. No per-repository error handling exists, so one
failure rejects the whole batch. -/
def getPullRequestsForRepos (fetchPulls : Str → Except HttpError (List PullRequest))
    (repoNames : List Str) : Except HttpError (List PullRequest) :=
  match promiseAll (repoNames.map fetchPulls) with
  | .ok lists => .ok lists.flatten
  | .error e => .error e

/-- getPullRequestReviews: returns the empty list for a falsy url without
fetching; otherwise fetches, catching every error: a 404 response yields the
empty list, and any other error is logged and also yields the empty list, so
the method never rejects. -/
def getPullRequestReviews (pullRequestUrl : Option Str)
    (fetch : FetchOutcome (List Review)) : Except HttpError (List Review) :=
  match pullRequestUrl with
  | none => .ok []
  | some u =>
    if u.isEmpty then .ok []
    else
      match fetch with
      | .ok revs => .ok revs
      | .err e => if e.status = some NOT_FOUND then .ok [] else .ok []

/-- The mapping of a reviewed issue-event to a Review record. -/
def eventToReview (e : Event) : Review :=
  { state := e.state, user := e.actor, submitted_at := e.created_at }

/-- getPullRequestEvents: fetches issue events, keeps those whose event field
is the reviewed tag and maps them to Review records; every fetch error is
caught and yields the empty list. -/
def getPullRequestEvents (fetch : FetchOutcome (List Event)) : List Review :=
  match fetch with
  | .ok evs => (evs.filter (fun ev => ev.event == reviewedTag)).map eventToReview
  | .err _ => []

/-- getPullRequestComments: fetches issue comments; every error is caught and
yields the empty list. -/
def getPullRequestComments (fetch : FetchOutcome (List Comment)) : List Comment :=
  match fetch with
  | .ok cs => cs
  | .err _ => []

/-- date-fns subMinutes on epoch milliseconds. -/
def subMinutes (t : Int) (m : Int) : Int := t - m * 60 * 1000

/-- date-fns isAfter: strictly later instant. -/
def isAfter (a b : Int) : Bool := decide (b < a)

/-- The predicate of the reviews.find call in checkApprovedPRs: state is
APPROVED, the reviewer login is the configured username, and the submission
instant is strictly after the fiveMinutesAgo cutoff. -/
def isFreshApproval (username : Str) (fiveMinutesAgo : Int) (review : Review) : Bool :=
  review.state == APPROVED && review.user.login == username &&
    isAfter review.submitted_at fiveMinutesAgo

/-- The reviews-then-events chain of checkApprovedPRs: fetch reviews, fall
back to issue events when the review list is empty, and catch a 404 from the
chain as an empty list while re-throwing any other error. -/
def reviewsThenEvents (prUrl : Option Str) (reviewsFetch : FetchOutcome (List Review))
    (eventsFetch : FetchOutcome (List Event)) : Except HttpError (List Review) :=
  match getPullRequestReviews prUrl reviewsFetch with
  | .ok revs => if revs.isEmpty then .ok (getPullRequestEvents eventsFetch) else .ok revs
  | .error e => if e.status = some NOT_FOUND then .ok [] else .error e

/-- The issue-comments url built by getPullRequestComments and
addMemeComment. -/
def issueCommentUrl (repoFullName : Str) (pullNumber : Nat) : Str :=
  apiReposBase ++ repoFullName ++ issuesSegS.data ++ (toString pullNumber).data ++
    commentsSegS.data

/-- The comment body posted by addMemeComment: the meme url wrapped in
markdown image syntax. -/
def memeCommentBody (memeUrl : Str) : Str :=
  memeBodyOpenS.data ++ memeUrl ++ memeBodyCloseS.data

/-- addMemeComment: issues exactly one POST of the wrapped meme url to the
issue-comments url (first component: the requests issued, independent of the
outcome), and catches any posting error, so the method always resolves. -/
def addMemeComment (repoFullName : Str) (pullNumber : Nat) (memeUrl : Str)
    (post : FetchOutcome Unit) : List PostRequest × Except HttpError Unit :=
  ([{ url := issueCommentUrl repoFullName pullNumber, body := memeCommentBody memeUrl }],
   match post with
   | .ok _ => .ok ()
   | .err _ => .ok ())

/-- getRandomMeme: indexes the catalog at the floor of a uniform random draw
from the half-open unit interval scaled by the catalog length; out-of-range
indexing would be undefined in JS, hence the Option result. -/
def getRandomMeme (random : ℚ) : Option Str :=
  memeUrls[(⌊random * (memeUrls.length : ℚ)⌋).toNat]?

/-- The per-PR stage of checkApprovedPRs, for one candidate pull request:
skip PRs with falsy urls, run the reviews-then-events chain, look for a fresh
approval, fetch the comments and suppress posting when any catalog url occurs
in any existing comment body, and otherwise post the chosen meme. The outer
per-PR try-catch turns any error into no post. chosenMeme stands for the
value returned by getRandomMeme. The result is the POST issued for this PR,
if any. -/
def processPR (username : Str) (now : Int) (pr : PullRequest)
    (reviewsFetch : FetchOutcome (List Review))
    (eventsFetch : FetchOutcome (List Event))
    (commentsFetch : FetchOutcome (List Comment))
    (chosenMeme : Str) : Option PostRequest :=
  if !truthy pr.html_url || !truthy pr.repository_url then none
  else
    match reviewsThenEvents pr.html_url reviewsFetch eventsFetch with
    | .error _ => none
    | .ok reviews =>
      match reviews.find? (fun review => isFreshApproval username (subMinutes now 5) review) with
      | none => none
      | some _ =>
        if memeUrls.any (fun memeUrl => (getPullRequestComments commentsFetch).any
            (fun comment => includes comment.body memeUrl))
        then none
        else some { url := issueCommentUrl (repoIdOfUrl (pr.repository_url.getD [])) pr.number,
                    body := memeCommentBody chosenMeme }

/-- The organisation filter of checkApprovedPRs: keep a repository full name
when it starts with some configured organisation name followed by a slash. -/
def passesOrgFilter (orgs : List Str) (repoFullName : Str) : Bool :=
  orgs.any (fun org => (org ++ ['/']).isPrefixOf repoFullName)

/-- Modelled from the spec's words: the owner segment of a repository
identifier is the segment before the first slash. Used only to compare the
implemented filter against the spec's description of it. -/
def ownerSegment (s : Str) : Str := s.takeWhile (fun c => c ≠ '/')

/-- C3: the approval freshness test accepts a review iff its state is
APPROVED, its reviewer login is the configured user, and its submission
instant is strictly after now minus five minutes; in particular a review
submitted exactly five minutes ago is rejected, one submitted 4:59 ago is
accepted, and one submitted 5:01 ago is rejected. -/
theorem isFreshApproval_strict_window :
    (∀ (username : Str) (now : Int) (review : Review),
      isFreshApproval username (subMinutes now 5) review = true ↔
        review.state = APPROVED ∧ review.user.login = username ∧
          now - 5 * 60 * 1000 < review.submitted_at)
    ∧ ∀ (username : Str) (now : Int),
        isFreshApproval username (subMinutes now 5)
          { state := APPROVED, user := { login := username },
            submitted_at := now - 299 * 1000 } = true
        ∧ isFreshApproval username (subMinutes now 5)
            { state := APPROVED, user := { login := username },
              submitted_at := now - 300 * 1000 } = false
        ∧ isFreshApproval username (subMinutes now 5)
            { state := APPROVED, user := { login := username },
              submitted_at := now - 301 * 1000 } = false := by
  constructor
  · intro username now review
    simp [isFreshApproval, isAfter, subMinutes, and_assoc]
  · intro username now
    refine ⟨?_, ?_, ?_⟩ <;> simp [isFreshApproval, isAfter, subMinutes]

/-- C5: when the reviews fetch returns the empty list, the checker falls back
to issue events, keeping exactly the reviewed events mapped to review records
whose state is the event state, whose user is the actor and whose submission
instant is the creation time; the approval test treats such a synthesized
record identically to a native review with the same fields. -/
theorem eventsFallback_identical (username : Str) (now : Int) (prUrl : Str)
    (evs : List Event) (ev : Event) :
    reviewsThenEvents (some prUrl) (.ok []) (.ok evs) =
      .ok ((evs.filter (fun e => e.event == reviewedTag)).map eventToReview)
    ∧ eventToReview ev =
        { state := ev.state, user := ev.actor, submitted_at := ev.created_at }
    ∧ isFreshApproval username (subMinutes now 5) (eventToReview ev) =
        isFreshApproval username (subMinutes now 5)
          { state := ev.state, user := ev.actor, submitted_at := ev.created_at } := by
  refine ⟨?_, rfl, rfl⟩
  by_cases h : prUrl.isEmpty <;>
    simp [reviewsThenEvents, getPullRequestReviews, getPullRequestEvents, h]

/-- C6: a 404 from the reviews endpoint yields the empty review list rather
than an error, and the per-PR review chain still resolves, continuing into
the events fallback. -/
theorem reviews404_as_empty (prUrl : Str) (eventsFetch : FetchOutcome (List Event)) :
    getPullRequestReviews (some prUrl) (.err { status := some 404 }) = .ok []
    ∧ reviewsThenEvents (some prUrl) (.err { status := some 404 }) eventsFetch =
        .ok (getPullRequestEvents eventsFetch) := by
  constructor <;> by_cases h : prUrl.isEmpty <;>
    simp [getPullRequestReviews, reviewsThenEvents, NOT_FOUND, h]

/-- C8: addMemeComment resolves normally whatever the POST outcome (posting
failures are swallowed, so nothing propagates to the caller), and it issues
exactly one POST request, the same one for every outcome, so no retry
occurs. -/
theorem addMemeComment_swallows_errors (repoFullName : Str) (pullNumber : Nat)
    (memeUrl : Str) (post : FetchOutcome Unit) :
    (addMemeComment repoFullName pullNumber memeUrl post).2 = .ok ()
    ∧ (addMemeComment repoFullName pullNumber memeUrl post).1 =
        [{ url := issueCommentUrl repoFullName pullNumber,
           body := memeCommentBody memeUrl }] := by
  cases post <;> simp [addMemeComment]

/-- C10: getPullRequestReviews is total: it resolves for every input, with the
empty list for a missing url and for every fetch error, not only 404; hence
any reviews-fetch failure sends the chain into the events fallback, and the
chain-level 404 catch in checkApprovedPRs never observes a rejection from
getPullRequestReviews. -/
theorem getPullRequestReviews_never_rejects (prUrl : Option Str)
    (fetch : FetchOutcome (List Review)) (e : HttpError) (u : Str)
    (eventsFetch : FetchOutcome (List Event)) :
    (∃ revs, getPullRequestReviews prUrl fetch = .ok revs)
    ∧ getPullRequestReviews none fetch = .ok []
    ∧ getPullRequestReviews (some u) (.err e) = .ok []
    ∧ reviewsThenEvents (some u) (.err e) eventsFetch =
        .ok (getPullRequestEvents eventsFetch)
    ∧ ∃ revs, reviewsThenEvents prUrl fetch eventsFetch = .ok revs := by
  have herr : getPullRequestReviews (some u) (.err e) = .ok [] := by
    by_cases h : u.isEmpty <;> simp [getPullRequestReviews, h, ite_self]
  have htot : ∃ revs, getPullRequestReviews prUrl fetch = .ok revs := by
    cases prUrl with
    | none => exact ⟨[], rfl⟩
    | some v =>
      by_cases h : v.isEmpty
      · exact ⟨[], by simp [getPullRequestReviews, h]⟩
      · cases fetch with
        | ok revs => exact ⟨revs, by simp [getPullRequestReviews, h]⟩
        | err e2 => exact ⟨[], by simp [getPullRequestReviews, h, ite_self]⟩
  refine ⟨htot, rfl, herr, ?_, ?_⟩
  · simp [reviewsThenEvents, herr]
  · obtain ⟨revs, hr⟩ := htot
    rw [reviewsThenEvents, hr]
    by_cases h : revs.isEmpty <;> simp [h]

/-- C2 counterexample: an identifier inserted into the approvedRepos set by an
earlier cycle is still in the set after a later cycle whose search returns no
items, although the identifiers derived from the later cycle's items form the
empty collection: the set is not rebuilt from empty each cycle. -/
theorem trackApprovedRepositories_carries_state :
    ( "orga/repo1").data ∈
      trackApprovedRepositories
        (trackApprovedRepositories ∅
          [{ html_url := none,
             repository_url := some ( "https://api.github.com/repos/orga/repo1").data,
             number := 1 }])
        []
    ∧ cycleRepoIds ([] : List PullRequest) = [] := by
  constructor
  · decide
  · rfl

/-- C2 amended: the approvedRepos set persists across cycles and accumulates:
after trackApprovedRepositories it holds exactly the union of its prior
contents and the distinct identifiers derived from this cycle's items that
have a truthy repository reference (missing or empty references excluded). -/
theorem trackApprovedRepositories_union (prior : Finset Str) (items : List PullRequest) :
    trackApprovedRepositories prior items = prior ∪ (cycleRepoIds items).toFinset := by
  induction items generalizing prior with
  | nil => simp [trackApprovedRepositories, cycleRepoIds]
  | cons pr rest ih =>
    cases hu : pr.repository_url with
    | none =>
      have h1 : trackApprovedRepositories prior (pr :: rest) =
          trackApprovedRepositories prior rest := by
        simp [trackApprovedRepositories, hu]
      rw [h1, ih]
      have h2 : cycleRepoIds (pr :: rest) = cycleRepoIds rest := by
        simp [cycleRepoIds, hu]
      rw [h2]
    | some u =>
      by_cases hue : u = []
      · have h1 : trackApprovedRepositories prior (pr :: rest) =
            trackApprovedRepositories prior rest := by
          simp [trackApprovedRepositories, hu, hue]
        rw [h1, ih]
        have h2 : cycleRepoIds (pr :: rest) = cycleRepoIds rest := by
          simp [cycleRepoIds, hu, hue]
        rw [h2]
      · have h1 : trackApprovedRepositories prior (pr :: rest) =
            trackApprovedRepositories (insert (repoIdOfUrl u) prior) rest := by
          simp [trackApprovedRepositories, hu, hue]
        rw [h1, ih]
        have h2 : cycleRepoIds (pr :: rest) = repoIdOfUrl u :: cycleRepoIds rest := by
          simp [cycleRepoIds, hu, hue]
        rw [h2]
        ext x
        simp only [Finset.mem_union, Finset.mem_insert, List.mem_toFinset, List.mem_cons]
        tauto

/-- Helper for C7: Promise.all rejects when some member promise rejects. -/
theorem promiseAll_error_of_mem {α : Type} (ps : List (Except HttpError α))
    (h : ∃ p ∈ ps, ∃ e, p = .error e) : ∃ e, promiseAll ps = .error e := by
  induction ps with
  | nil => simp at h
  | cons p ps ih =>
    obtain ⟨q, hq, e, he⟩ := h
    cases p with
    | error e2 => exact ⟨e2, rfl⟩
    | ok a =>
      rcases List.mem_cons.mp hq with rfl | hmem
      · exact absurd he (by simp)
      · obtain ⟨e', he'⟩ := ih ⟨q, hmem, e, he⟩
        exact ⟨e', by simp [promiseAll, he']⟩

/-- Helper for C7: Promise.all resolves to the pointwise results when every
member promise resolves. -/
theorem promiseAll_map_ok {α : Type} (f : Str → Except HttpError α) (g : Str → α) :
    ∀ rs : List Str, (∀ r ∈ rs, f r = .ok (g r)) →
      promiseAll (rs.map f) = .ok (rs.map g)
  | [], _ => rfl
  | r :: rs, h => by
    have h1 : f r = .ok (g r) := h r (by simp)
    have h2 := promiseAll_map_ok f g rs (fun x hx => h x (by simp [hx]))
    simp [promiseAll, h1, h2]

/-- C7: if the open-pulls request of any single repository fails, the whole
batch rejects (no partial result is returned); when every request succeeds,
the result is the concatenation of the per-repository lists in input order. -/
theorem getPullRequestsForRepos_batch
    (fetchPulls : Str → Except HttpError (List PullRequest)) (repoNames : List Str) :
    ((∃ r ∈ repoNames, ∃ e, fetchPulls r = .error e) →
      ∃ e, getPullRequestsForRepos fetchPulls repoNames = .error e)
    ∧ ∀ g : Str → List PullRequest,
        (∀ r ∈ repoNames, fetchPulls r = .ok (g r)) →
          getPullRequestsForRepos fetchPulls repoNames = .ok (repoNames.map g).flatten := by
  constructor
  · intro h
    obtain ⟨r, hr, e, he⟩ := h
    obtain ⟨e', he'⟩ := promiseAll_error_of_mem (repoNames.map fetchPulls)
      ⟨fetchPulls r, List.mem_map_of_mem _ hr, e, he⟩
    exact ⟨e', by simp [getPullRequestsForRepos, he']⟩
  · intro g hg
    have h := promiseAll_map_ok fetchPulls g repoNames hg
    simp [getPullRequestsForRepos, h]

/-- Witness for C7 at a concrete fetch oracle and repository list. -/
theorem getPullRequestsForRepos_batch_witness :
    getPullRequestsForRepos
        (fun _ => .ok [{ html_url := none, repository_url := none, number := 7 }])
        [( "orga/repo1").data] =
      .ok (([( "orga/repo1").data].map
        (fun _ => [({ html_url := none, repository_url := none,
                      number := 7 } : PullRequest)])).flatten) :=
  (getPullRequestsForRepos_batch _ _).2 _ (fun _ _ => rfl)

/-- C9: getRandomMeme applied to a uniform draw from the half-open unit
interval returns one of the eight catalog urls, and addMemeComment posts that
url wrapped in the exact markdown image syntax. -/
theorem getRandomMeme_in_catalog (random : ℚ) (h0 : 0 ≤ random) (h1 : random < 1) :
    memeUrls.length = 8 ∧
    ∃ url ∈ memeUrls, getRandomMeme random = some url ∧
      ∀ (repoFullName : Str) (pullNumber : Nat) (post : FetchOutcome Unit),
        (addMemeComment repoFullName pullNumber url post).1 =
          [{ url := issueCommentUrl repoFullName pullNumber,
             body := memeBodyOpenS.data ++ url ++ memeBodyCloseS.data }] := by
  have hlen : memeUrls.length = 8 := rfl
  have hfl : ⌊random * (memeUrls.length : ℚ)⌋ < (8 : Int) := by
    rw [hlen]
    apply Int.floor_lt.mpr
    push_cast
    nlinarith
  have hge : (0 : Int) ≤ ⌊random * (memeUrls.length : ℚ)⌋ := by
    apply Int.floor_nonneg.mpr
    have : (0 : ℚ) ≤ (memeUrls.length : ℚ) := by positivity
    exact mul_nonneg h0 this
  have hidx : (⌊random * (memeUrls.length : ℚ)⌋).toNat < memeUrls.length := by
    simp only [hlen] at hfl hge ⊢
    omega
  refine ⟨hlen, memeUrls[(⌊random * (memeUrls.length : ℚ)⌋).toNat], ?_, ?_, ?_⟩
  · exact List.getElem_mem hidx
  · simp [getRandomMeme, List.getElem?_eq_getElem hidx]
  · intro repoFullName pullNumber post
    rfl

/-- Witness for C9 at the draw one half. -/
theorem getRandomMeme_in_catalog_witness :
    (0 ≤ (1 / 2 : ℚ) ∧ (1 / 2 : ℚ) < 1) ∧
    (memeUrls.length = 8 ∧
      ∃ url ∈ memeUrls, getRandomMeme (1 / 2) = some url ∧
        ∀ (repoFullName : Str) (pullNumber : Nat) (post : FetchOutcome Unit),
          (addMemeComment repoFullName pullNumber url post).1 =
            [{ url := issueCommentUrl repoFullName pullNumber,
               body := memeBodyOpenS.data ++ url ++ memeBodyCloseS.data }]) :=
  ⟨⟨by norm_num, by norm_num⟩,
    getRandomMeme_in_catalog (1 / 2) (by norm_num) (by norm_num)⟩

/-- Helper: the boolean prefix test on character lists holds iff the receiver
extends the pattern. -/
theorem isPrefixOf_iff_exists (l₁ l₂ : Str) :
    l₁.isPrefixOf l₂ = true ↔ ∃ t, l₁ ++ t = l₂ := by
  induction l₁ generalizing l₂ with
  | nil => simp [List.isPrefixOf]
  | cons a l ih =>
    cases l₂ with
    | nil => simp [List.isPrefixOf]
    | cons b l₂ =>
      simp only [List.isPrefixOf, Bool.and_eq_true, beq_iff_eq, ih, List.cons_append,
        List.cons.injEq]
      constructor
      · rintro ⟨rfl, t, rfl⟩
        exact ⟨t, rfl, rfl⟩
      · rintro ⟨t, rfl, rfl⟩
        exact ⟨rfl, t, rfl⟩

/-- Helper: a string slash-free on both sides of its first separator is
determined by the text before that separator. -/
theorem slash_sep_unique (a : Str) :
    ∀ (b t₁ t₂ : Str), ('/' : Char) ∉ a → ('/' : Char) ∉ b →
      a ++ '/' :: t₁ = b ++ '/' :: t₂ → a = b := by
  induction a with
  | nil =>
    intro b t₁ t₂ _ hb h
    cases b with
    | nil => rfl
    | cons c bs =>
      simp only [List.nil_append, List.cons_append, List.cons.injEq] at h
      exact absurd (h.1 ▸ List.mem_cons_self c bs) hb
  | cons c as ih =>
    intro b t₁ t₂ ha hb h
    cases b with
    | nil =>
      simp only [List.cons_append, List.nil_append, List.cons.injEq] at h
      exact absurd (h.1 ▸ List.mem_cons_self c as) ha
    | cons d bs =>
      simp only [List.cons_append, List.cons.injEq] at h
      obtain ⟨rfl, h2⟩ := h
      rw [ih bs t₁ t₂ (fun hm => ha (List.mem_cons_of_mem _ hm))
        (fun hm => hb (List.mem_cons_of_mem _ hm)) h2]

/-- C4 counterexample: with the configured list holding the slash-containing
entry a/b, the identifier a/b/c passes the filter although its owner segment,
a, is not an element of the configured list, refuting the stated iff. -/
theorem passesOrgFilter_counterexample :
    passesOrgFilter [( "a/b").data] ( "a/b/c").data = true
    ∧ ownerSegment ( "a/b/c").data = ( "a").data
    ∧ ( "a").data ∉ [( "a/b").data] := by
  refine ⟨by decide, by decide, by decide⟩

/-- C4 amended: for repository identifiers of the real owner/name shape,
with neither segment containing a slash, the identifier passes the
organisation filter iff the owner segment is exactly an element of the
configured list, whatever the configured entries are. -/
theorem passesOrgFilter_iff_owner_mem (orgs : List Str) (owner nm : Str)
    (howner : ('/' : Char) ∉ owner) (hnm : ('/' : Char) ∉ nm) :
    passesOrgFilter orgs (owner ++ '/' :: nm) = true ↔ owner ∈ orgs := by
  constructor
  · intro h
    obtain ⟨org, horg, hpre⟩ := List.any_eq_true.mp h
    obtain ⟨t, ht⟩ := (isPrefixOf_iff_exists _ _).mp hpre
    rw [List.append_assoc, List.singleton_append] at ht
    have hcnt : (org ++ '/' :: t).count '/' = (owner ++ '/' :: nm).count '/' := by
      rw [ht]
    rw [List.count_append, List.count_append, List.count_cons_self,
      List.count_cons_self, List.count_eq_zero.mpr howner,
      List.count_eq_zero.mpr hnm] at hcnt
    have horgfree : ('/' : Char) ∉ org := by
      apply List.count_eq_zero.mp
      omega
    rw [slash_sep_unique org owner t nm horgfree howner ht] at horg
    exact horg
  · intro h
    apply List.any_eq_true.mpr
    refine ⟨owner, h, ?_⟩
    apply (isPrefixOf_iff_exists _ _).mpr
    exact ⟨nm, by simp⟩

/-- Witness for the amended C4 at a one-slash identifier. -/
theorem passesOrgFilter_iff_owner_mem_witness :
    (('/' : Char) ∉ ( "orga").data ∧ ('/' : Char) ∉ ( "repo1").data) ∧
    (passesOrgFilter [( "orga").data] (( "orga").data ++ '/' :: ( "repo1").data) = true ↔
      ( "orga").data ∈ [( "orga").data]) :=
  ⟨⟨by decide, by decide⟩,
    passesOrgFilter_iff_owner_mem [( "orga").data] ( "orga").data ( "repo1").data
      (by decide) (by decide)⟩

/-- C1: a POST is issued for a candidate PR only if the effective review list
obtained by the reviews-then-events chain contains a record with state
APPROVED, the configured reviewer login, and a submission instant strictly
within the last five minutes, and no fetched comment body includes any of the
catalog urls; when either condition fails, no POST is issued. -/
theorem processPR_posts_only_if (username : Str) (now : Int) (pr : PullRequest)
    (reviewsFetch : FetchOutcome (List Review)) (eventsFetch : FetchOutcome (List Event))
    (commentsFetch : FetchOutcome (List Comment)) (chosenMeme : Str) (req : PostRequest)
    (hpost : processPR username now pr reviewsFetch eventsFetch commentsFetch chosenMeme =
      some req) :
    (∃ revs, reviewsThenEvents pr.html_url reviewsFetch eventsFetch = .ok revs ∧
      ∃ review ∈ revs, review.state = APPROVED ∧ review.user.login = username ∧
        now - 5 * 60 * 1000 < review.submitted_at)
    ∧ ∀ memeUrl ∈ memeUrls, ∀ comment ∈ getPullRequestComments commentsFetch,
        includes comment.body memeUrl = false := by
  by_cases hguard : (!truthy pr.html_url || !truthy pr.repository_url) = true
  · rw [processPR, if_pos hguard] at hpost
    exact absurd hpost (by simp)
  · rw [processPR, if_neg hguard] at hpost
    split at hpost
    next e hrte => exact absurd hpost (by simp)
    next revs hrte =>
      split at hpost
      next hfind => exact absurd hpost (by simp)
      next r hfind =>
        split at hpost
        next hdup => exact absurd hpost (by simp)
        next hdup =>
          constructor
          · refine ⟨revs, hrte, r, List.mem_of_find?_eq_some hfind, ?_⟩
            have hp := List.find?_some hfind
            simp only [isFreshApproval, isAfter, subMinutes, Bool.and_eq_true,
              beq_iff_eq, decide_eq_true_eq] at hp
            exact ⟨hp.1.1, hp.1.2, hp.2⟩
          · intro memeUrl hmu comment hc
            rw [List.any_eq_true] at hdup
            push_neg at hdup
            have h2 := hdup memeUrl hmu
            cases hb : includes comment.body memeUrl with
            | false => rfl
            | true => exact absurd (List.any_eq_true.mpr ⟨comment, hc, hb⟩) h2

/-- Witness for C1 at a concrete freshly approved PR with no comments. -/
theorem processPR_posts_only_if_witness :
    (∃ revs, reviewsThenEvents
        (some ( "https://github.com/orga/repo1/pull/1").data)
        (.ok [{ state := APPROVED, user := { login := ( "octo").data },
                submitted_at := 999999 }])
        (.ok []) = .ok revs ∧
      ∃ review ∈ revs, review.state = APPROVED ∧ review.user.login = ( "octo").data ∧
        (1000000 : Int) - 5 * 60 * 1000 < review.submitted_at)
    ∧ ∀ memeUrl ∈ memeUrls, ∀ comment ∈ getPullRequestComments (.ok ([] : List Comment)),
        includes comment.body memeUrl = false :=
  processPR_posts_only_if ( "octo").data 1000000
    { html_url := some ( "https://github.com/orga/repo1/pull/1").data,
      repository_url := some ( "https://api.github.com/repos/orga/repo1").data,
      number := 1 }
    (.ok [{ state := APPROVED, user := { login := ( "octo").data },
            submitted_at := 999999 }])
    (.ok []) (.ok []) memeUrl4.data
    { url := issueCommentUrl ( "orga/repo1").data 1,
      body := memeCommentBody memeUrl4.data }
    (by decide)

end GithubService
